import Mathlib

/-!
Shallow embedding of the copyright-header rule of eslint-plugin-copyright
(src/src/rules/copyright.ts).  Documents are `List Char`; lines are obtained
by splitting on the line-feed character exactly as `sourceText.split('\n')`
does.  The regular expressions built by the source from the user template are
realised as direct backtracking matchers over the same pattern shape
(`^\s*` comment-open `\s*` literal-template-with-4-digit-year ... `\s*$`),
which is what the source regexes denote for templates whose escaped form does
not itself contain the byte sequence rewritten by the inner no-op replace.
Fixes are realised by applying the reported range replacements to the text,
which is what the host does with an ESLint fixer object.
-/

namespace CopyrightPlugin

/-- The JavaScript regex class backslash-s and the white space removed by
String.prototype.trim: ASCII white space, NBSP and the Unicode space range
used by both. -/
def isWs (c : Char) : Bool :=
  c = ' ' || c = '\t' || c = '\n' || c = '\r' || c = '\x0b' || c = '\x0c' ||
  c = '\u00a0' || c = '\u1680' || (8192 ≤ c.toNat && c.toNat ≤ 8202) ||
  c = '\u2028' || c = '\u2029' || c = '\u202f' || c = '\u205f' ||
  c = '\u3000' || c = '\ufeff'

/-- A piece of text is blank when every character is white space; this is the
falsiness of text.trim() in the source. -/
def allWs (l : List Char) : Bool := l.all isWs

/-- Splitting a character list on a separator, mirroring String.split: a text
with n separators yields n+1 pieces, the empty text yields one empty piece. -/
def splitOnChar (sep : Char) : List Char → List (List Char)
  | [] => [[]]
  | c :: cs =>
    if c = sep then [] :: splitOnChar sep cs
    else
      match splitOnChar sep cs with
      | l :: ls => (c :: l) :: ls
      | [] => [[c]]

/-- Lines of the document, as sourceText.split with the line-feed character. -/
def splitNl (text : List Char) : List (List Char) := splitOnChar '\n' text

/-- Character comparison, case-insensitively when the flag is set (the i flag
of the source regexes; ASCII folding, which agrees with the source on the
templates at issue). -/
def chEq (ci : Bool) (a b : Char) : Bool :=
  if ci then a.toLower = b.toLower else a = b

/-- Matching a literal pattern at the front of the input, returning the rest. -/
def litB (ci : Bool) : List Char → List Char → Option (List Char)
  | [], s => some s
  | _ :: _, [] => none
  | p :: ps, c :: cs => if chEq ci p c then litB ci ps cs else none

/-- The regex piece backslash-s-star with a continuation: some split of a
leading white-space run makes the continuation succeed. -/
def wsStar (k : List Char → Bool) : List Char → Bool
  | [] => k []
  | c :: cs => k (c :: cs) || (isWs c && wsStar k cs)

/-- The regex piece backslash-d repeated four times: exactly four digits. -/
def digits4 : List Char → Option (List Char)
  | a :: b :: c :: d :: rest =>
    if a.isDigit && b.isDigit && c.isDigit && d.isDigit then some rest else none
  | _ => none

/-- Locating the first occurrence of the placeholder YYYY in the template,
as the single-replacement String.replace of the source does. -/
def findYYYY : List Char → Option (List Char × List Char)
  | [] => none
  | c :: cs =>
    if (c :: cs).take 4 = ['Y', 'Y', 'Y', 'Y'] then some ([], cs.drop 3)
    else
      match findYYYY cs with
      | some (pre, post) => some (c :: pre, post)
      | none => none

/-- template.replace of YYYY by the year text (first occurrence only). -/
def replaceYYYY (tpl year : List Char) : List Char :=
  match findYYYY tpl with
  | some (pre, post) => pre ++ year ++ post
  | none => tpl

/-- Matching the escaped template body, its first YYYY turned into a four
digit group, then handing the rest to the continuation. -/
def matchBody (ci : Bool) (tpl : List Char) (k : List Char → Bool)
    (s : List Char) : Bool :=
  match findYYYY tpl with
  | none =>
    match litB ci tpl s with
    | some r => k r
    | none => false
  | some (pre, post) =>
    match litB ci pre s with
    | none => false
    | some r1 =>
      match digits4 r1 with
      | none => false
      | some r2 =>
        match litB ci post r2 with
        | some r3 => k r3
        | none => false

/-- The singleLineCommentRegex of the source: start, white space, two
slashes, white space, template body, white space, end. -/
def singleMatch (ci : Bool) (tpl line : List Char) : Bool :=
  wsStar (fun r =>
    match litB false ['/', '/'] r with
    | none => false
    | some r1 => wsStar (matchBody ci tpl allWs) r1) line

/-- The multiLineCommentRegex of the source: start, white space, slash-star,
white space, template body, white space, star-slash, white space, end. -/
def multiMatch (ci : Bool) (tpl line : List Char) : Bool :=
  wsStar (fun r =>
    match litB false ['/', '*'] r with
    | none => false
    | some r1 =>
      wsStar (matchBody ci tpl (fun r3 =>
        wsStar (fun r4 =>
          match litB false ['*', '/'] r4 with
          | some r5 => allWs r5
          | none => false) r3)) r1) line

/-- isCopyrightComment of the source: either comment style matches the line,
case-sensitively or not according to the flag. -/
def looseMatch (ci : Bool) (tpl line : List Char) : Bool :=
  singleMatch ci tpl line || multiMatch ci tpl line

/-- Some suffix of the list satisfies the predicate; this realises an
unanchored regex search. -/
def existsTailP (p : List Char → Bool) : List Char → Bool
  | [] => p []
  | c :: cs => p (c :: cs) || existsTailP p cs

/-- The anchored jsCommentFormat regex of the source: two slashes, exactly
one white-space character, then a character other than a slash. -/
def jsCommentFormat : List Char → Bool
  | '/' :: '/' :: c :: d :: _ => isWs c && !(d = '/')
  | _ => false

/-- The unanchored search for two slashes followed by two or more
white-space characters. -/
def slashSlashWs2 (l : List Char) : Bool :=
  existsTailP (fun t =>
    match t with
    | '/' :: '/' :: a :: b :: _ => isWs a && isWs b
    | _ => false) l

/-- The anchored search for two or more white-space characters at the end of
the line. -/
def endsWs2 (l : List Char) : Bool :=
  match l.reverse with
  | a :: b :: _ => isWs a && isWs b
  | _ => false

/-- The unanchored search for slash-star followed by two or more white-space
characters. -/
def slashStarWs2 (l : List Char) : Bool :=
  existsTailP (fun t =>
    match t with
    | '/' :: '*' :: a :: b :: _ => isWs a && isWs b
    | _ => false) l

/-- The anchored search for two or more white-space characters right before
a closing star-slash at the end of the line. -/
def ws2StarSlashEnd (l : List Char) : Bool :=
  match l.reverse with
  | '/' :: '*' :: a :: b :: _ => isWs a && isWs b
  | _ => false

/-- A character matched by the regex dot: anything except a line terminator. -/
def dotChar (c : Char) : Bool :=
  !(c = '\n' || c = '\r' || c = '\u2028' || c = '\u2029')

/-- The anchored cssCommentFormat regex of the source: slash-star, exactly one
white-space character, any characters, one white-space character, star-slash
at the end. -/
def cssCommentFormat (line : List Char) : Bool :=
  match line with
  | '/' :: '*' :: w :: rest =>
    isWs w &&
      (match rest.reverse with
       | '/' :: '*' :: w2 :: midRev => isWs w2 && midRev.all dotChar
       | _ => false)
  | _ => false

/-- hasFormatIssue of the source, per comment dialect. -/
def hasFormatIssue (isCss : Bool) (firstLine : List Char) : Bool :=
  if isCss then
    !(cssCommentFormat firstLine) || slashStarWs2 firstLine ||
      ws2StarSlashEnd firstLine
  else
    !(jsCommentFormat firstLine) || slashSlashWs2 firstLine ||
      endsWs2 firstLine

/-- String.includes of the source year check: the pattern occurs as a
contiguous substring. -/
def containsSub (pat l : List Char) : Bool :=
  existsTailP (fun t => pat.isPrefixOf t) l

/-- The while loop counting lines that are the empty string (actualNewlines
and contentLineIndex both arise from this count). -/
def countLeadingEmpties : List (List Char) → Nat
  | [] => 0
  | l :: ls => if l = [] then countLeadingEmpties ls + 1 else 0

/-- The while loop computing firstNonEmptyLine: leading lines whose trimmed
text is empty. -/
def firstNonEmpty : List (List Char) → Nat
  | [] => 0
  | l :: ls => if allWs l then firstNonEmpty ls + 1 else 0

/-- Character offset of the start of line i, each earlier line contributing
its length plus one for the line feed (lineStart and contentStart of the
source). -/
def lineOffset (lines : List (List Char)) (i : Nat) : Nat :=
  ((lines.take i).map (fun l => l.length + 1)).sum

/-- The while loop extending a removal backwards over white space:
removalStart of the source. -/
def backWs (text : List Char) : Nat → Nat
  | 0 => 0
  | p + 1 =>
    if (match text.get? p with | some c => isWs c | none => false) then
      backWs text p
    else p + 1

/-- Range replacement on the text: everything before a, the replacement, and
everything from b on (ESLint replaceTextRange semantics; an insertion has
a = b, a removal has an empty replacement). -/
def replaceRange (s : List Char) (a b : Nat) (r : List Char) : List Char :=
  s.take a ++ r ++ s.drop b

/-- A run of n line feeds, as the repeat call building newlinesStr. -/
def nlRepeat (n : Nat) : List Char := List.replicate n '\n'

/-- The five diagnostic kinds of the MessageIds union in the source. -/
inductive MessageId where
  | missingCopyright
  | outdatedCopyright
  | incorrectPosition
  | incorrectNewlines
  | invalidCopyrightFormat
deriving DecidableEq, Repr

/-- A reported diagnostic: its message id, the 1-based line of its location,
and the document text that results from applying its fix. -/
structure Diagnostic where
  messageId : MessageId
  line : Nat
  fixed : List Char
deriving DecidableEq, Repr

/-- The expected header rendering: comment-open, template body with the year
substituted, comment-close (expectedCopyright of the source). -/
def expectedHeader (isCss : Bool) (body : List Char) : List Char :=
  if isCss then "/* ".data ++ body ++ " */".data
  else "// ".data ++ body

/-- The scan of the source looking for a case-insensitive loose match on a
line other than line 0, returning its index and text. -/
def findCIFrom (tpl : List Char) : List (List Char) → Nat → Option (Nat × List Char)
  | [], _ => none
  | l :: ls, i =>
    if i ≠ 0 && looseMatch true tpl l then some (i, l)
    else findCIFrom tpl ls (i + 1)

/-- The end of the removal range around a misplaced copyright line: the
following line feed is consumed unless it is the last character of the file. -/
def posLineEnd (text : List Char) (e : Nat) : Nat :=
  if e < text.length &&
     (match text.get? e with | some c => c = '\n' | none => false) &&
     e < text.length - 1 then e + 1
  else e

/-- The checkCopyright function of the source, with each context.report call
collected into the result list (every control path reports at most once
because each report is followed by a return). -/
def checkCopyright (template : List Char) (newlinesOpt : Option Nat)
    (ext : List Char) (year : List Char) (sourceText : List Char) :
    List Diagnostic :=
  let newlines := newlinesOpt.getD 1
  let isCss := ext = "css".data
  let body := replaceYYYY template year
  let expectedCopyright := expectedHeader isCss body
  let lines := splitNl sourceText
  if allWs sourceText then
    [⟨.missingCopyright, 1, expectedCopyright ++ nlRepeat newlines ++ sourceText⟩]
  else
    let firstLine := lines.headD []
    let isCS := looseMatch false template firstLine
    let isCI := looseMatch true template firstLine
    if firstNonEmpty lines = 0 && (isCI && !isCS) then
      [⟨.invalidCopyrightFormat, 1,
        replaceRange sourceText 0 firstLine.length expectedCopyright⟩]
    else if firstNonEmpty lines = 0 && isCS then
      let fmt := hasFormatIssue isCss firstLine
      let needsYearUpdate := !(containsSub body firstLine)
      let actualNewlines := countLeadingEmpties (lines.drop 1)
      let expectedEmptyLines := newlines - 1
      if fmt || needsYearUpdate || !(actualNewlines = expectedEmptyLines) then
        let contentLineIndex := 1 + actualNewlines
        let contentStart := lineOffset lines contentLineIndex
        [⟨(if fmt then .invalidCopyrightFormat
           else if needsYearUpdate then .outdatedCopyright
           else .incorrectNewlines), 1,
          replaceRange sourceText 0 contentStart
            (expectedCopyright ++ nlRepeat newlines)⟩]
      else []
    else
      match findCIFrom template lines 0 with
      | some (i, line) =>
        let lineStart := lineOffset lines i
        let lineEnd := posLineEnd sourceText (lineStart + line.length)
        let removalStart := backWs sourceText lineStart
        [⟨.incorrectPosition, i + 1,
          expectedCopyright ++ nlRepeat newlines ++
            sourceText.take removalStart ++ sourceText.drop lineEnd⟩]
      | none =>
        [⟨.missingCopyright, 1,
          expectedCopyright ++ nlRepeat newlines ++ sourceText⟩]

/-- The hard-coded list of analysed file extensions in the source. -/
def supportedExtensions : List (List Char) :=
  ["js".data, "jsx".data, "ts".data, "tsx".data, "css".data]

/-- filePath.split on the dot, last piece, lower-cased: the derived file
extension. -/
def fileExtension (filename : List Char) : List Char :=
  ((splitOnChar '.' filename).getLastD []).map Char.toLower

/-- The create function gating: documents whose extension is outside the
hard-coded list are not analysed at all. -/
def reports (template : List Char) (newlinesOpt : Option Nat)
    (filename : List Char) (year : List Char) (sourceText : List Char) :
    List Diagnostic :=
  if supportedExtensions.contains (fileExtension filename) then
    checkCopyright template newlinesOpt (fileExtension filename) year sourceText
  else []

/-- The engine entry point of the spec: at most one diagnostic or none. -/
def evaluate (template : List Char) (newlinesOpt : Option Nat)
    (filename : List Char) (year : List Char) (sourceText : List Char) :
    Option Diagnostic :=
  (reports template newlinesOpt filename year sourceText).head?

/-- One fix/re-evaluate step of the host loop: apply the fix of the reported
diagnostic, or keep the text when there is none. -/
def fixStep (template : List Char) (newlinesOpt : Option Nat)
    (filename : List Char) (year : List Char) (sourceText : List Char) :
    List Char :=
  match evaluate template newlinesOpt filename year sourceText with
  | some d => d.fixed
  | none => sourceText

/-- n rounds of the host fix/re-evaluate loop. -/
def fixIter (template : List Char) (newlinesOpt : Option Nat)
    (filename : List Char) (year : List Char) : Nat → List Char → List Char
  | 0, text => text
  | n + 1, text =>
    fixIter template newlinesOpt filename year n
      (fixStep template newlinesOpt filename year text)

/-! Concrete data shared by the claim instances: the template, year and file
names used throughout the repository test-suite. -/

def tplStd : List Char := "Copyright © YYYY".data

def yr2026 : List Char := "2026".data

def fnJs : List Char := "file.js".data

/-! Supporting lemmas. -/

theorem splitOnChar_ne_nil (sep : Char) : ∀ l : List Char, splitOnChar sep l ≠ []
  | [] => by simp [splitOnChar]
  | c :: cs => by
    unfold splitOnChar
    split
    · simp
    · split <;> simp

theorem allWs_splitNl_head (text : List Char) (h : allWs text = true) :
    allWs ((splitNl text).headD []) = true := by
  induction text with
  | nil => rfl
  | cons c cs ih =>
    simp only [allWs, List.all_cons, Bool.and_eq_true] at h
    unfold splitNl splitOnChar
    by_cases hc : c = '\n'
    · simp [hc, allWs]
    · rw [if_neg hc]
      cases hsp : splitOnChar '\n' cs with
      | nil => exact absurd hsp (splitOnChar_ne_nil _ _)
      | cons a rest =>
        have ha := ih h.2
        rw [splitNl, hsp, List.headD_cons] at ha
        show allWs (c :: a) = true
        simp only [allWs, List.all_cons, Bool.and_eq_true]
        exact ⟨h.1, ha⟩

theorem wsStar_allWs (k : List Char → Bool)
    (hk : ∀ t, allWs t = true → k t = false) :
    ∀ l, allWs l = true → wsStar k l = false := by
  intro l
  induction l with
  | nil =>
    intro h
    simpa [wsStar] using hk [] rfl
  | cons c cs ih =>
    intro h
    simp only [allWs, List.all_cons, Bool.and_eq_true] at h
    have h1 : k (c :: cs) = false := by
      apply hk
      simp [allWs, h.1, h.2]
    simp [wsStar, h1, ih h.2]

theorem toLower_of_isWs (c : Char) (h : isWs c = true) : c.toLower = c := by
  have h90 : ¬(65 ≤ c.toNat ∧ c.toNat ≤ 90) := by
    rintro ⟨ha, hb⟩
    have hcase : (8192 ≤ c.toNat ∧ c.toNat ≤ 8202) ∨
        c ∈ ([' ', '\t', '\n', '\r', '\x0b', '\x0c', '\u00a0', '\u1680',
          '\u2028', '\u2029', '\u202f', '\u205f', '\u3000', '\ufeff'] : List Char) := by
      simp only [isWs, Bool.or_eq_true, Bool.and_eq_true, decide_eq_true_eq] at h
      simp only [List.mem_cons, List.not_mem_nil, or_false]
      tauto
    rcases hcase with ⟨h1, h2⟩ | hmem
    · omega
    · fin_cases hmem <;> (revert ha hb; decide)
  unfold Char.toLower
  exact if_neg (fun hcon => h90 ⟨hcon.1, hcon.2⟩)

theorem chEq_slash_ws (ci : Bool) (c : Char) (h : isWs c = true) :
    chEq ci '/' c = false := by
  have hne : c ≠ '/' := by
    intro he
    rw [he] at h
    exact absurd h (by decide)
  have hx : ('/' : Char) ≠ c := fun he => hne he.symm
  cases ci with
  | false => simp [chEq, hx]
  | true =>
    have hlow : ('/' : Char).toLower = '/' := by decide
    simp [chEq, toLower_of_isWs c h, hlow, hx]

theorem litB_slash_allWs (ci : Bool) (rest t : List Char)
    (h : allWs t = true) : litB ci ('/' :: rest) t = none := by
  cases t with
  | nil => rfl
  | cons c cs =>
    simp only [allWs, List.all_cons, Bool.and_eq_true] at h
    simp [litB, chEq_slash_ws ci c h.1]

theorem looseMatch_allWs (ci : Bool) (tpl l : List Char)
    (h : allWs l = true) : looseMatch ci tpl l = false := by
  have hs : singleMatch ci tpl l = false := by
    unfold singleMatch
    refine wsStar_allWs _ ?_ l h
    intro t ht
    rw [litB_slash_allWs false _ t ht]
  have hm : multiMatch ci tpl l = false := by
    unfold multiMatch
    refine wsStar_allWs _ ?_ l h
    intro t ht
    rw [litB_slash_allWs false _ t ht]
  simp [looseMatch, hs, hm]

theorem allWs_text_false_of_looseMatch (ci : Bool) (tpl text : List Char)
    (h : looseMatch ci tpl ((splitNl text).headD []) = true) :
    allWs text = false := by
  cases happ : allWs text with
  | false => rfl
  | true =>
    have hf := looseMatch_allWs ci tpl _ (allWs_splitNl_head text happ)
    rw [hf] at h
    exact absurd h (by simp)

theorem firstNonEmpty_splitNl_zero (text : List Char)
    (h : allWs ((splitNl text).headD []) = false) :
    firstNonEmpty (splitNl text) = 0 := by
  cases hsp : splitNl text with
  | nil => exact absurd hsp (splitOnChar_ne_nil _ _)
  | cons a rest =>
    rw [hsp] at h
    simp only [List.headD_cons] at h
    simp [firstNonEmpty, h]

/-! Concrete documents used by the claim instances. -/

def hdrOnlyDoc : List Char := "// Copyright © 2026\n".data

def dupDoc : List Char :=
  "// Copyright © 2026\n\n// Copyright © 2026\n\nconst foo = \"bar\";".data

def constFooDoc : List Char := "const foo = \"bar\";".data

def oneBlankDoc : List Char := "// Copyright © 2026\n\nconst foo = \"bar\";".data

def strayDoc : List Char :=
  "x\n// Copyright © 2026\ny\n// Copyright © 2026\nz".data

def strayFixedDoc : List Char :=
  "// Copyright © 2026\nxy\n// Copyright © 2026\nz".data

theorem fixStep_hdrOnly :
    fixStep tplStd (some 1) fnJs yr2026 hdrOnlyDoc = hdrOnlyDoc := by decide

theorem fixIter_hdrOnly :
    ∀ n, fixIter tplStd (some 1) fnJs yr2026 n hdrOnlyDoc = hdrOnlyDoc
  | 0 => rfl
  | n + 1 => by
    show fixIter tplStd (some 1) fnJs yr2026 n
        (fixStep tplStd (some 1) fnJs yr2026 hdrOnlyDoc) = hdrOnlyDoc
    rw [fixStep_hdrOnly]
    exact fixIter_hdrOnly n

/-- C1: the claim that the fix/re-evaluate iteration reaches a diagnostic-free
document within the number of distinct diagnostic kinds fails on the document
consisting of the canonical current-year header followed by a final line feed:
with newlines 1 the engine reports incorrectNewlines there (the final line-feed
makes the last split line empty and it is counted as a blank separator), and
the fix replaces the text with itself, so every iterate still reports the same
diagnostic and the iteration never reaches none. -/
theorem c1_idempotence_fails_on_header_only_file (n : Nat) :
    evaluate tplStd (some 1) fnJs yr2026
        (fixIter tplStd (some 1) fnJs yr2026 n hdrOnlyDoc) =
      some ⟨MessageId.incorrectNewlines, 1, hdrOnlyDoc⟩ := by
  rw [fixIter_hdrOnly n]
  decide

/-- C2: on the exact duplicate-notice input of the claim (header, blank line,
identical second notice, blank line, content; newlines 2), the engine reports
no diagnostic at all — the MessageId type of the source has no
duplicateCopyright kind and checkCopyright performs no duplicate scan once
line 1 is a compliant header with the expected blank separator. -/
theorem c2_duplicate_notice_reports_nothing :
    evaluate tplStd (some 2) fnJs yr2026 dupDoc = none := by decide

/-- C3: there is no configurable extension allow-list in the source: the
extension gate is the hard-coded list js, jsx, ts, tsx, css, so a document
named with the rs extension is never analysed under any configuration,
whatever its content — including the configuration in which the repository
test-suite expects a missingCopyright report for an rs file. -/
theorem c3_rs_documents_never_analysed (template : List Char)
    (newlinesOpt : Option Nat) (year text : List Char) :
    evaluate template newlinesOpt "file.rs".data year text = none := rfl

/-- C6 counterexample: on a document whose lines 2 and 4 both loosely match
while line 1 does not, the incorrectPosition fix deletes only the first
matching line (plus the run of white space before it), so the second stray
notice is still present — and still a loosely-matching line — in the fixed
text, refuting the claim that every later matching line is deleted. -/
theorem c6_second_stray_line_survives :
    evaluate tplStd (some 1) fnJs yr2026 strayDoc =
      some ⟨MessageId.incorrectPosition, 2, strayFixedDoc⟩ ∧
    ((splitNl strayFixedDoc).drop 1).any
      (fun l => looseMatch true tplStd l) = true :=
  ⟨by decide, by decide⟩

/-- C8 counterexample: with the validated configuration value newlines 0, the
missingCopyright fix inserts the header followed by no line terminator at all,
gluing the header onto the first content line — refuting the claim that every
fix inserts at least one terminator once validation has passed. -/
theorem c8_zero_newlines_fix_inserts_no_terminator :
    evaluate tplStd (some 0) fnJs yr2026 constFooDoc =
      some ⟨MessageId.missingCopyright, 1,
        "// Copyright © 2026const foo = \"bar\";".data⟩ ∧
    '\n' ∉ "// Copyright © 2026const foo = \"bar\";".data :=
  ⟨by decide, by decide⟩

/-- C9 counterexample: a first line that is exactly the canonical header plus
one trailing space passes the strict format check (the trailing-white-space
regex of the source requires two or more such characters), so the document is
accepted as fully compliant, refuting the claim that one or more trailing
white-space characters trigger invalidCopyrightFormat. -/
theorem c9_single_trailing_space_accepted :
    evaluate tplStd (some 1) fnJs yr2026
      "// Copyright © 2026 \nconst foo = \"bar\";".data = none := by decide

/-- C10 counterexample: the engine does not detect the line-ending style: the
carriage-return-plus-line-feed variant of a compliant document is classified
differently from its line-feed counterpart (the blank separator line then
holds a carriage return and is not counted as blank), and the fix inserts
plain line-feed separators. -/
theorem c10_crlf_and_lf_disagree :
    evaluate tplStd (some 2) fnJs yr2026
        "// Copyright © 2026\r\n\r\nconst foo = \"bar\";".data =
      some ⟨MessageId.incorrectNewlines, 1,
        "// Copyright © 2026\n\n\r\nconst foo = \"bar\";".data⟩ ∧
    evaluate tplStd (some 2) fnJs yr2026 oneBlankDoc = none :=
  ⟨by decide, by decide⟩

/-- C5: a first line that loosely matches the template case-insensitively but
not case-sensitively is always reported as invalidCopyrightFormat — never as
missingCopyright — and the fix replaces exactly the first line with the
canonical header rendering. -/
theorem c5_case_mismatch_flagged_as_format (template : List Char)
    (newlinesOpt : Option Nat) (filename year text : List Char)
    (hExt : supportedExtensions.contains (fileExtension filename) = true)
    (hCI : looseMatch true template ((splitNl text).headD []) = true)
    (hCS : looseMatch false template ((splitNl text).headD []) = false) :
    evaluate template newlinesOpt filename year text =
      some ⟨MessageId.invalidCopyrightFormat, 1,
        replaceRange text 0 ((splitNl text).headD []).length
          (expectedHeader (fileExtension filename = "css".data)
            (replaceYYYY template year))⟩ := by
  have htext : allWs text = false :=
    allWs_text_false_of_looseMatch true template text hCI
  have hl0 : allWs ((splitNl text).headD []) = false := by
    cases hl : allWs ((splitNl text).headD []) with
    | false => rfl
    | true =>
      rw [looseMatch_allWs true template _ hl] at hCI
      exact absurd hCI (by simp)
  have hfne : firstNonEmpty (splitNl text) = 0 :=
    firstNonEmpty_splitNl_zero text hl0
  simp only [List.headD_eq_head?] at hCI hCS
  have hExt2 : fileExtension filename ∈ supportedExtensions := by
    simpa using hExt
  simp [evaluate, reports, checkCopyright, hExt2, htext, hfne, hCI, hCS]

/-- C5 instance: the lower-cased header over the standard template is fixed
to the canonical rendering. -/
theorem c5_case_mismatch_instance :
    evaluate tplStd (some 1) fnJs yr2026 "// copyright © 2026\nx".data =
      some ⟨MessageId.invalidCopyrightFormat, 1,
        replaceRange "// copyright © 2026\nx".data 0
          ((splitNl "// copyright © 2026\nx".data).headD []).length
          (expectedHeader (fileExtension fnJs = "css".data)
            (replaceYYYY tplStd yr2026))⟩ :=
  c5_case_mismatch_flagged_as_format tplStd (some 1) fnJs yr2026
    "// copyright © 2026\nx".data (by decide) (by decide) (by decide)

/-- C9 amended: for line-comment documents the strict check flags trailing
white space only when the trailing run has length at least two; whenever the
first line loosely matches case-sensitively and ends in two white-space
characters the report is invalidCopyrightFormat. -/
theorem c9_double_trailing_space_flagged (template : List Char)
    (newlinesOpt : Option Nat) (filename year text : List Char)
    (hExt : supportedExtensions.contains (fileExtension filename) = true)
    (hNotCss : fileExtension filename ≠ "css".data)
    (hCS : looseMatch false template ((splitNl text).headD []) = true)
    (hWs2 : endsWs2 ((splitNl text).headD []) = true) :
    (evaluate template newlinesOpt filename year text).map
        Diagnostic.messageId =
      some MessageId.invalidCopyrightFormat := by
  have htext : allWs text = false :=
    allWs_text_false_of_looseMatch false template text hCS
  have hl0 : allWs ((splitNl text).headD []) = false := by
    cases hl : allWs ((splitNl text).headD []) with
    | false => rfl
    | true =>
      rw [looseMatch_allWs false template _ hl] at hCS
      exact absurd hCS (by simp)
  have hfne : firstNonEmpty (splitNl text) = 0 :=
    firstNonEmpty_splitNl_zero text hl0
  have hExt2 : fileExtension filename ∈ supportedExtensions := by
    simpa using hExt
  simp only [List.headD_eq_head?] at hCS hWs2
  simp [evaluate, reports, checkCopyright, hasFormatIssue, hExt2, htext,
    hfne, hCS, hWs2, hNotCss]

/-- C9 amended instance: the canonical header with two trailing spaces. -/
theorem c9_double_trailing_space_instance :
    (evaluate tplStd (some 1) fnJs yr2026
        "// Copyright © 2026  \nconst foo = \"bar\";".data).map
        Diagnostic.messageId =
      some MessageId.invalidCopyrightFormat :=
  c9_double_trailing_space_flagged tplStd (some 1) fnJs yr2026
    "// Copyright © 2026  \nconst foo = \"bar\";".data
    (by decide) (by decide) (by decide) (by decide)

theorem reports_length_le_one (template : List Char) (newlinesOpt : Option Nat)
    (filename year text : List Char) :
    (reports template newlinesOpt filename year text).length ≤ 1 := by
  simp only [reports, checkCopyright]
  repeat' split
  all_goals simp

/-- C4: every invocation reports at most one diagnostic, and on a document
whose first line is the correctly positioned case-sensitive header the
reported kind is determined by the fixed priority order: format defects
first, then the outdated year, then the separator-line count. -/
theorem c4_single_report_and_priority (template : List Char)
    (newlinesOpt : Option Nat) (filename year text : List Char) :
    (reports template newlinesOpt filename year text).length ≤ 1 ∧
    (supportedExtensions.contains (fileExtension filename) = true →
     looseMatch false template ((splitNl text).headD []) = true →
     (evaluate template newlinesOpt filename year text).map
         Diagnostic.messageId =
       (if hasFormatIssue (fileExtension filename = "css".data)
            ((splitNl text).headD []) = true then
          some MessageId.invalidCopyrightFormat
        else if containsSub (replaceYYYY template year)
            ((splitNl text).headD []) = false then
          some MessageId.outdatedCopyright
        else if countLeadingEmpties ((splitNl text).drop 1)
            = newlinesOpt.getD 1 - 1 then none
        else some MessageId.incorrectNewlines)) := by
  constructor
  · exact reports_length_le_one template newlinesOpt filename year text
  · intro hExt hCS
    have htext : allWs text = false :=
      allWs_text_false_of_looseMatch false template text hCS
    have hl0 : allWs ((splitNl text).headD []) = false := by
      cases hl : allWs ((splitNl text).headD []) with
      | false => rfl
      | true =>
        rw [looseMatch_allWs false template _ hl] at hCS
        exact absurd hCS (by simp)
    have hfne : firstNonEmpty (splitNl text) = 0 :=
      firstNonEmpty_splitNl_zero text hl0
    have hExt2 : fileExtension filename ∈ supportedExtensions := by
      simpa using hExt
    simp only [List.headD_eq_head?] at hCS ⊢
    simp only [List.drop_one]
    by_cases hf : hasFormatIssue
        (decide (fileExtension filename = "css".data))
        ((splitNl text).head?.getD []) = true
    · simp [evaluate, reports, checkCopyright, hExt2, htext, hfne, hCS, hf]
    · by_cases hy : containsSub (replaceYYYY template year)
          ((splitNl text).head?.getD []) = false
      · simp [evaluate, reports, checkCopyright, hExt2, htext, hfne, hCS,
          hf, hy]
      · by_cases hn : countLeadingEmpties (splitNl text).tail
            = newlinesOpt.getD 1 - 1
        · simp [evaluate, reports, checkCopyright, hExt2, htext, hfne, hCS,
            hf, hy, hn]
        · simp [evaluate, reports, checkCopyright, hExt2, htext, hfne, hCS,
            hf, hy, hn]

/-- C4 instance: a document with a format defect, an outdated year and a
wrong separator count at once reports the format defect. -/
theorem c4_priority_instance :
    (evaluate tplStd (some 1) fnJs yr2026
        "//Copyright © 2023\n\n\nconst foo = \"bar\";".data).map
        Diagnostic.messageId =
      some MessageId.invalidCopyrightFormat := by
  have h := (c4_single_report_and_priority tplStd (some 1) fnJs yr2026
    "//Copyright © 2023\n\n\nconst foo = \"bar\";".data).2
    (by decide) (by decide)
  rw [h]
  decide

theorem findCIFrom_eq_some (tpl : List Char) :
    ∀ (ls : List (List Char)) (s i : Nat) (line : List Char),
      findCIFrom tpl ls s = some (i, line) →
      looseMatch true tpl line = true ∧ i ≠ 0 ∧ s ≤ i ∧
      ∀ j lj, s ≤ j → j < i → j ≠ 0 → ls.get? (j - s) = some lj →
        looseMatch true tpl lj = false := by
  intro ls
  induction ls with
  | nil =>
    intro s i line h
    exact absurd h (by simp [findCIFrom])
  | cons l ls2 ih =>
    intro s i line h
    unfold findCIFrom at h
    by_cases hc : (decide (s ≠ 0) && looseMatch true tpl l) = true
    · rw [if_pos hc] at h
      simp only [Option.some.injEq, Prod.mk.injEq] at h
      obtain ⟨hi, hl⟩ := h
      subst hi
      subst hl
      simp only [Bool.and_eq_true, decide_eq_true_eq] at hc
      refine ⟨hc.2, hc.1, le_refl s, ?_⟩
      intro j lj hsj hji _ _
      omega
    · rw [if_neg hc] at h
      obtain ⟨hm, hi0, hsi, hmin⟩ := ih (s + 1) i line h
      refine ⟨hm, hi0, by omega, ?_⟩
      intro j lj hsj hji hj0 hget
      rcases Nat.eq_or_lt_of_le hsj with heq | hlt
      · subst heq
      
        simp only [Nat.sub_self, List.get?] at hget
        obtain rfl : l = lj := by
          simpa using hget
        simp only [Bool.and_eq_true, decide_eq_true_eq, not_and] at hc
        cases hlm : looseMatch true tpl l with
        | false => rfl
        | true => exact absurd hlm (by simpa using hc hj0)
      · have hd : j - s = (j - (s + 1)) + 1 := by omega
        rw [hd] at hget
        simp only [List.get?] at hget
        exact hmin j lj (by omega) hji hj0 hget

/-- C6 amended: when line 1 does not loosely match but some later line does,
the engine reports incorrectPosition at the first such line, and the fix
inserts the canonical header with its separators at offset 0 while deleting
only that first matching line — together with the run of white space
immediately before it and its following line terminator unless that
terminator is the last character — leaving any further matching lines in
place; every line strictly between line 1 and the reported line does not
loosely match. -/
theorem c6_position_fix_removes_first_only (template : List Char)
    (newlinesOpt : Option Nat) (filename year text : List Char)
    (i : Nat) (line : List Char)
    (hExt : supportedExtensions.contains (fileExtension filename) = true)
    (hTrim : allWs text = false)
    (hCI : looseMatch true template ((splitNl text).headD []) = false)
    (hCS : looseMatch false template ((splitNl text).headD []) = false)
    (hFind : findCIFrom template (splitNl text) 0 = some (i, line)) :
    evaluate template newlinesOpt filename year text =
      some ⟨MessageId.incorrectPosition, i + 1,
        expectedHeader (fileExtension filename = "css".data)
            (replaceYYYY template year) ++
          nlRepeat (newlinesOpt.getD 1) ++
          text.take (backWs text (lineOffset (splitNl text) i)) ++
          text.drop (posLineEnd text
            (lineOffset (splitNl text) i + line.length))⟩ ∧
    (∀ j lj, 0 < j → j < i → (splitNl text).get? j = some lj →
      looseMatch true template lj = false) := by
  constructor
  · have hExt2 : fileExtension filename ∈ supportedExtensions := by
      simpa using hExt
    simp only [List.headD_eq_head?] at hCI hCS
    simp [evaluate, reports, checkCopyright, hExt2, hTrim, hCI, hCS, hFind]
  · intro j lj hj0 hji hget
    obtain ⟨hm, hi0, hsi, hmin⟩ :=
      findCIFrom_eq_some template (splitNl text) 0 i line hFind
    exact hmin j lj (Nat.zero_le j) hji (by omega) (by simpa using hget)

/-- C6 amended instance: on the stray-duplicate document the first matching
line is line index 1 and the fix keeps the later duplicate. -/
theorem c6_position_fix_instance :
    evaluate tplStd (some 1) fnJs yr2026 strayDoc =
      some ⟨MessageId.incorrectPosition, 1 + 1,
        expectedHeader (fileExtension fnJs = "css".data)
            (replaceYYYY tplStd yr2026) ++
          nlRepeat ((some 1 : Option Nat).getD 1) ++
          strayDoc.take (backWs strayDoc (lineOffset (splitNl strayDoc) 1)) ++
          strayDoc.drop (posLineEnd strayDoc
            (lineOffset (splitNl strayDoc) 1 +
              ("// Copyright © 2026".data).length))⟩ :=
  (c6_position_fix_removes_first_only tplStd (some 1) fnJs yr2026 strayDoc 1
    "// Copyright © 2026".data (by decide) (by decide) (by decide) (by decide)
    (by decide)).1

/-- C8 amended: after schema validation (which admits any newlines value of
at least zero and rejects negative values before any document is processed)
the engine clamps only the classifier's expected blank-line count — the Nat
subtraction newlines minus one — so the configurations newlines 0 and
newlines 1 classify every document identically; the missingCopyright fix,
however, appends exactly newlines line terminators after the canonical
header, hence none at all when newlines is 0. -/
theorem c8_clamped_classification_and_missing_fix :
    (∀ (template filename year text : List Char),
      (evaluate template (some 0) filename year text).map
          Diagnostic.messageId =
        (evaluate template (some 1) filename year text).map
          Diagnostic.messageId) ∧
    (∀ (template : List Char) (n : Nat) (filename year text : List Char)
        (d : Diagnostic),
      evaluate template (some n) filename year text = some d →
      d.messageId = MessageId.missingCopyright →
      d.fixed = expectedHeader (fileExtension filename = "css".data)
          (replaceYYYY template year) ++ nlRepeat n ++ text) := by
  constructor
  · intro template filename year text
    simp only [evaluate, reports]
    by_cases hExt :
        supportedExtensions.contains (fileExtension filename) = true
    · rw [if_pos hExt, if_pos hExt]
      simp only [checkCopyright, Option.getD, Nat.zero_sub, Nat.sub_self]
      repeat' split
      all_goals simp_all
    · rw [if_neg hExt, if_neg hExt]
  · intro template n filename year text d h1 h2
    simp only [evaluate, reports, checkCopyright] at h1
    repeat' split at h1
    all_goals simp only [List.head?_cons, List.head?_nil,
      Option.some.injEq, reduceCtorEq] at h1
    all_goals try subst h1
    all_goals simp_all

/-- C8 amended instance: with newlines 0 the missingCopyright fix appends no
terminator at all after the canonical header. -/
theorem c8_missing_fix_zero_instance :
    (⟨MessageId.missingCopyright, 1,
        "// Copyright © 2026const foo = \"bar\";".data⟩ : Diagnostic).fixed =
      expectedHeader (fileExtension fnJs = "css".data)
          (replaceYYYY tplStd yr2026) ++ nlRepeat 0 ++ constFooDoc :=
  c8_clamped_classification_and_missing_fix.2 tplStd 0 fnJs yr2026
    constFooDoc _ (by decide) rfl

/-- C10 amended: whenever the engine reports missingCopyright, the fixed text
is the canonical header followed by exactly newlines line-feed characters and
the untouched original text — the inserted separators are always plain line
feeds, never carriage-return-plus-line-feed, whatever line endings the
document uses. -/
theorem c10_missing_fix_inserts_lf_separators (template : List Char)
    (newlinesOpt : Option Nat) (filename year text : List Char)
    (d : Diagnostic)
    (h1 : evaluate template newlinesOpt filename year text = some d)
    (h2 : d.messageId = MessageId.missingCopyright) :
    d.fixed = expectedHeader (fileExtension filename = "css".data)
        (replaceYYYY template year) ++
      nlRepeat (newlinesOpt.getD 1) ++ text := by
  simp only [evaluate, reports, checkCopyright] at h1
  repeat' split at h1
  all_goals simp only [List.head?_cons, List.head?_nil,
    Option.some.injEq, reduceCtorEq] at h1
  all_goals try subst h1
  all_goals simp_all

/-- C10 amended instance: the missingCopyright fix on a plain document. -/
theorem c10_missing_fix_instance :
    (⟨MessageId.missingCopyright, 1,
        "// Copyright © 2026\nconst foo = \"bar\";".data⟩ : Diagnostic).fixed =
      expectedHeader (fileExtension fnJs = "css".data)
          (replaceYYYY tplStd yr2026) ++
        nlRepeat ((some 1 : Option Nat).getD 1) ++ constFooDoc :=
  c10_missing_fix_inserts_lf_separators tplStd (some 1) fnJs yr2026
    constFooDoc _ (by decide) rfl

end CopyrightPlugin
